import Mathlib

/-!
Shallow embedding of the Bridge-Online server (src/server.py).

Cards carry their suit as a string, exactly as the Python code does.
The deck is the Python list `self.cards`, kept in the same order; a
Python `list.pop()` removes the LAST element, which `popLast` models.
Randomness (`random.shuffle`) is modelled by quantifying over the
shuffled deck, constrained to be a permutation of the freshly built
deck where a claim needs it.  Exceptions (`ValueError`, `IndexError`,
`KeyError`) are modelled with `Except String`.  The process-wide
dictionary `no_players` is modelled as an insertion-ordered
association list, matching Python dict iteration order.
-/

structure Card where
  suit : String
  rank : Nat
deriving DecidableEq, Repr

namespace Deck

/-- Suit strings in the order the Python constructor iterates them. -/
def suits : List String := ["Hearts", "Diamonds", "Spades", "Clubs"]

/-- Deck construction: `Deck.__init__` builds, for each suit in order,
the cards of rank 1 to 13 in ascending order. -/
def init : List Card :=
  suits.flatMap (fun suit => (List.range' 1 13).map (fun rank => ⟨suit, rank⟩))

/-- Python `list.pop()`: removes and returns the last element; `none`
models the `IndexError` raised on an empty list. -/
def popLast : List Card → Option (Card × List Card)
  | [] => none
  | [c] => some (c, [])
  | c :: c2 :: rest =>
    (popLast (c2 :: rest)).map (fun p => (p.1, c :: p.2))

/-- Inner loop of `Deck.deal`: `for j in range(num_cards): hand.append(self.cards.pop())`.
Returns the hand in append order together with the remaining deck. -/
def dealOneHand : Nat → List Card → Option (List Card × List Card)
  | 0, cards => some ([], cards)
  | n + 1, cards =>
    (popLast cards).bind (fun p =>
      (dealOneHand n p.2).map (fun q => (p.1 :: q.1, q.2)))

/-- Outer loop of `Deck.deal`: `for i in range(num_hands)`, building the
list of hands in order. -/
def dealHands : Nat → Nat → List Card → Option (List (List Card) × List Card)
  | 0, _, cards => some ([], cards)
  | n + 1, k, cards =>
    (dealOneHand k cards).bind (fun p =>
      (dealHands n k p.2).map (fun q => (p.1 :: q.1, q.2)))

/-- Method `Deck.deal(num_hands, num_cards)`.  The guard
`num_cards * num_hands > len(self.cards)` raises `ValueError` before any
card is popped; the second component is the state of `self.cards` after
the call (unchanged when the guard fires).  The inner `none` branch is
the `IndexError` a pop from an empty list would raise; it is provably
unreachable once the guard has passed. -/
def deal (cards : List Card) (numHands numCards : Nat) :
    Except String (List (List Card)) × List Card :=
  if numCards * numHands > cards.length then
    (Except.error "Not enough cards in the deck!", cards)
  else
    match dealHands numHands numCards cards with
    | some p => (Except.ok p.1, p.2)
    | none => (Except.error "IndexError: pop from empty list", cards)

end Deck

/-- Function `suit_sort(card)`: the sort key `(card.suit, card.rank)`. -/
def suit_sort (card : Card) : String × Nat :=
  (card.suit, card.rank)

/-- Lexicographic strict comparison of character lists by code point,
which is exactly how Python compares strings. -/
def charListLt : List Char → List Char → Bool
  | [], [] => false
  | [], _ :: _ => true
  | _ :: _, [] => false
  | c :: cs, d :: ds =>
    if c < d then true
    else if c = d then charListLt cs ds
    else false

/-- Python string comparison `a < b`: lexicographic by code point. -/
def strLt (a b : String) : Bool :=
  charListLt a.data b.data

/-- Comparison Python applies to the `suit_sort` keys: lexicographic on
the pair, with the suit compared as a string. -/
def keyLe (a b : String × Nat) : Bool :=
  if strLt a.1 b.1 then true
  else if a.1 = b.1 then a.2 ≤ b.2
  else false

/-- Ordering on cards induced by the `suit_sort` key, as Python
compares the key tuples. -/
def pyLe (a b : Card) : Prop :=
  keyLe (suit_sort a) (suit_sort b) = true

instance : DecidableRel pyLe := fun a b =>
  instDecidableEqBool (keyLe (suit_sort a) (suit_sort b)) true

/-- Expression `sorted(hand, key=suit_sort)` from the body of `start`:
Python `sorted` is a stable sort by the key, and a stable sort of a
list by a total preorder has a unique result, here computed by
insertion sort. -/
def sortForDisplay (hand : List Card) : List Card :=
  hand.insertionSort pyLe

deriving instance DecidableEq for Except

/-- Value stored in `no_players` for one player: the dict
`{'name': ..., 'hands': ...}`, where `none` models absence of the
`'hands'` key (as after registration, before any deal). -/
structure PlayerEntry where
  name : String
  hands : Option (List Card)
deriving DecidableEq, Repr

/-- The process-wide dict `no_players`, as an insertion-ordered
association list from identifier strings to player entries. -/
abbrev Registry := List (String × PlayerEntry)

/-- Python dict assignment `m[k] = v`: updates in place when the key is
present, otherwise appends at the end (insertion order). -/
def dictSet (m : Registry) (k : String) (v : PlayerEntry) : Registry :=
  if (m.lookup k).isSome then
    m.map (fun e => if e.1 = k then (e.1, v) else e)
  else
    m ++ [(k, v)]

/-- Endpoint `ready`: generates an identifier (here a parameter, since
`uuid.uuid4()` is an external random source), stores
`{'name': name}` under it, and returns the echoed info. -/
def ready (registry : Registry) (newId : String) (name : String) :
    Registry × (String × String) :=
  (dictSet registry newId ⟨name, none⟩, (newId, name))

/-- Endpoint `clear`: sets `no_players` to the empty dict. -/
def clear (_registry : Registry) : Registry := []

/-- Endpoint `checkplayers`: returns `str(len(no_players))`. -/
def check (registry : Registry) : String :=
  toString registry.length

/-- First loop of `start`:
`for y, i in enumerate(no_players): no_players[i]['hands'] = hands[y]`.
When `y` runs past the end of `hands`, Python raises `IndexError`; the
entries already visited keep their newly assigned hands and the later
entries are untouched, which the second component records. -/
def assignHands : Registry → List (List Card) → Nat → Except String Unit × Registry
  | [], _, _ => (Except.ok (), [])
  | e :: rest, hands, y =>
    match hands[y]? with
    | none => (Except.error "IndexError: list index out of range", e :: rest)
    | some h =>
      let r := assignHands rest hands (y + 1)
      (r.1, (e.1, { e.2 with hands := some h }) :: r.2)

/-- Second loop of `start`:
`for i in no_players: no_players[i]['hands'] = sorted(no_players[i]['hands'], key=suit_sort)`.
Reading a missing `'hands'` key would raise `KeyError`. -/
def sortLoop : Registry → Except String Registry
  | [] => Except.ok []
  | e :: rest =>
    match e.2.hands with
    | none => Except.error "KeyError: hands"
    | some h =>
      (sortLoop rest).map
        (fun r => (e.1, { e.2 with hands := some (sortForDisplay h) }) :: r)

/-- Endpoint `start`: builds a fresh deck, shuffles it (the shuffled
deck is the `shuffled` parameter), deals `deal(4, 13)`, assigns
`hands[y]` to each registered player in registration order, then sorts
each stored hand with `suit_sort`.  The second component is the state
of `no_players` after the call, including the partial mutation left
behind when the assignment loop raises. -/
def start (registry : Registry) (shuffled : List Card) :
    Except String String × Registry :=
  match (Deck.deal shuffled 4 13).1 with
  | Except.error e => (Except.error e, registry)
  | Except.ok hands =>
    let a := assignHands registry hands 0
    match a.1 with
    | Except.error e => (Except.error e, a.2)
    | Except.ok _ =>
      match sortLoop a.2 with
      | Except.error e => (Except.error e, a.2)
      | Except.ok registry2 => (Except.ok "true", registry2)

/-- Endpoint `gethands/<uuid:id>`: looks up the player (`KeyError` if
the identifier is unknown), reads the `'hands'` key (`KeyError` if it
was never assigned), and renders each card as the pair
`(str(rank), str(suit))`. -/
def gethand (registry : Registry) (id : String) :
    Except String (List (String × String)) :=
  match registry.lookup id with
  | none => Except.error "KeyError: unknown identifier"
  | some p =>
    match p.hands with
    | none => Except.error "KeyError: hands"
    | some h => Except.ok (h.map (fun c => (toString c.rank, c.suit)))

/-- Hands actually dealt by a successful `Deck.deal`, empty on error. -/
def okHands (cards : List Card) (numHands numCards : Nat) : List (List Card) :=
  match (Deck.deal cards numHands numCards).1 with
  | Except.ok hs => hs
  | Except.error _ => []

/-- Effect of one iteration of the first loop of `start` on one entry:
`no_players[i]['hands'] = hands[y]`. -/
def assignEntry (e : String × PlayerEntry) (hd : List Card) : String × PlayerEntry :=
  (e.1, { e.2 with hands := some hd })

/-- Combined effect of both loops of `start` on one entry: the hand is
assigned and then sorted for display. -/
def assignSortEntry (e : String × PlayerEntry) (hd : List Card) : String × PlayerEntry :=
  (e.1, { e.2 with hands := some (sortForDisplay hd) })

/-- Effect of one iteration of the second loop of `start` on one entry. -/
def sortEntry (e : String × PlayerEntry) : String × PlayerEntry :=
  (e.1, { e.2 with hands := e.2.hands.map sortForDisplay })

/-- The four hands dealt inside `start`, as a function of the shuffled deck. -/
def dealtHands (shuffled : List Card) : List (List Card) :=
  okHands shuffled 4 13

/-- Executable adjacency check that a hand is ordered by the Python
sort key, suit as a string first and rank second. -/
def sortedByKey : List Card → Bool
  | [] => true
  | [_] => true
  | a :: b :: t => keyLe (suit_sort a) (suit_sort b) && sortedByKey (b :: t)

/-- Boolean check on one registry entry: the stored hand exists and is
ordered by the Python sort key. -/
def handSortedPy (e : String × PlayerEntry) : Bool :=
  match e.2.hands with
  | none => false
  | some h => sortedByKey h

/-- Modelled from the spec words only, for refinement comparison: the
position of a suit in the fixed enumeration order Hearts, Diamonds,
Spades, Clubs that the spec claims the display sort uses. -/
def specSuitIndex (s : String) : Nat :=
  if s = "Hearts" then 0
  else if s = "Diamonds" then 1
  else if s = "Spades" then 2
  else 3

/-- Modelled from the spec words only: a card key placing suits in the
enumeration order and ranks ascending within each suit. -/
def specEnumKey (c : Card) : Nat :=
  specSuitIndex c.suit * 13 + (c.rank - 1)

/-- Modelled from the spec words only: adjacency check that a hand is
sorted by (enumeration-order suit, ascending rank). -/
def specEnumSorted : List Card → Bool
  | [] => true
  | [_] => true
  | a :: b :: t => (specEnumKey a ≤ specEnumKey b) && specEnumSorted (b :: t)

/-- Stored hands of a registry, in registration order. -/
def storedHands (reg : Registry) : List (List Card) :=
  reg.filterMap (fun e => e.2.hands)

/-- Concrete registry with one registered player, hand not yet dealt. -/
def reg1 : Registry := [("p1", ⟨"amy", none⟩)]

/-- Concrete registry with four registered players, hands not yet dealt. -/
def reg4 : Registry :=
  [("p1", ⟨"jackson", none⟩), ("p2", ⟨"ian", none⟩),
   ("p3", ⟨"ben", none⟩), ("p4", ⟨"bel", none⟩)]

/-- Concrete registry with five registered players, hands not yet dealt. -/
def reg5 : Registry :=
  [("p1", ⟨"jackson", none⟩), ("p2", ⟨"ian", none⟩),
   ("p3", ⟨"ben", none⟩), ("p4", ⟨"bel", none⟩), ("p5", ⟨"eve", none⟩)]

/-- A legitimate shuffle outcome: the fresh deck with the first card
(Hearts 1) and the last card (Clubs 13) exchanged. -/
def swapDeck : List Card :=
  (Deck.init.set 0 ⟨"Clubs", 13⟩).set 51 ⟨"Hearts", 1⟩

namespace Deck

theorem popLast_append (r : List Card) (c : Card) :
    popLast (r ++ [c]) = some (c, r) := by
  induction r with
  | nil => simp [popLast]
  | cons a as ih =>
    cases as with
    | nil => simp [popLast]
    | cons b bs =>
      simp only [List.cons_append] at ih ⊢
      simp [popLast, ih]

theorem popLast_eq_some {l : List Card} {c : Card} {r : List Card}
    (h : popLast l = some (c, r)) : l = r ++ [c] := by
  induction l generalizing c r with
  | nil => simp [popLast] at h
  | cons a as ih =>
    cases as with
    | nil =>
      simp [popLast] at h
      simp [h.1, h.2.symm]
    | cons b bs =>
      simp only [popLast, Option.map_eq_some'] at h
      obtain ⟨p, hp, hpc⟩ := h
      have := ih hp
      cases hpc
      simp [this]

theorem popLast_of_ne_nil {l : List Card} (h : l ≠ []) :
    ∃ c r, popLast l = some (c, r) := by
  refine ⟨l.getLast h, l.dropLast, ?_⟩
  conv_lhs => rw [← List.dropLast_append_getLast h]
  exact popLast_append _ _

theorem dealOneHand_eq_some {k : Nat} {l hand r : List Card}
    (h : dealOneHand k l = some (hand, r)) :
    l = r ++ hand.reverse ∧ hand.length = k := by
  induction k generalizing l hand r with
  | zero =>
    simp [dealOneHand] at h
    simp [h.1, h.2.symm]
  | succ n ih =>
    simp only [dealOneHand, Option.bind_eq_some, Option.map_eq_some'] at h
    obtain ⟨⟨c, l1⟩, hpop, q, hq, hqc⟩ := h
    have hl := popLast_eq_some hpop
    obtain ⟨hl1, hlen⟩ := ih hq
    cases hqc
    constructor
    · simp only at hl1
      simp [hl, hl1, List.append_assoc]
    · simp [hlen]

end Deck

namespace Deck

theorem dealOneHand_isSome {k : Nat} {l : List Card} (h : k ≤ l.length) :
    ∃ p, dealOneHand k l = some p := by
  induction k generalizing l with
  | zero => exact ⟨([], l), rfl⟩
  | succ n ih =>
    have hne : l ≠ [] := by
      intro hl
      rw [hl] at h
      simp at h
    obtain ⟨c, r, hpop⟩ := popLast_of_ne_nil hne
    have hlr : l = r ++ [c] := popLast_eq_some hpop
    have hr : n ≤ r.length := by
      have : l.length = r.length + 1 := by simp [hlr]
      omega
    obtain ⟨q, hq⟩ := ih hr
    exact ⟨(c :: q.1, q.2), by simp [dealOneHand, hpop, hq]⟩

theorem dealHands_eq_some {n k : Nat} {l : List Card} {hs : List (List Card)}
    {r : List Card} (h : dealHands n k l = some (hs, r)) :
    hs.length = n ∧ (∀ hd ∈ hs, hd.length = k) ∧ l.Perm (hs.flatten ++ r) := by
  induction n generalizing l hs r with
  | zero =>
    simp [dealHands] at h
    simp [h.1, h.2.symm]
  | succ n ih =>
    simp only [dealHands, Option.bind_eq_some, Option.map_eq_some'] at h
    obtain ⟨⟨h1, l1⟩, hone, q, hq, hqc⟩ := h
    obtain ⟨hl1, hlen1⟩ := dealOneHand_eq_some hone
    obtain ⟨hqlen, hqall, hqperm⟩ := ih hq
    cases hqc
    refine ⟨by simp [hqlen], ?_, ?_⟩
    · intro hd hmem
      rcases List.mem_cons.1 hmem with hh | hh
      · rw [hh]; exact hlen1
      · exact hqall hd hh
    · have p1 : List.Perm l (h1.reverse ++ l1) := by
        rw [hl1]
        exact List.perm_append_comm
      have p2 : List.Perm (h1.reverse ++ l1) (h1 ++ l1) :=
        (List.reverse_perm h1).append_right l1
      have p3 : List.Perm (h1 ++ l1) (h1 ++ (q.1.flatten ++ q.2)) :=
        (hqperm).append_left h1
      have p4 : h1 ++ (q.1.flatten ++ q.2) = (h1 :: q.1).flatten ++ q.2 := by
        simp [List.append_assoc]
      exact ((p1.trans p2).trans p3).trans (by rw [p4])

theorem dealHands_isSome {n k : Nat} {l : List Card} (h : n * k ≤ l.length) :
    ∃ p, dealHands n k l = some p := by
  induction n generalizing l with
  | zero => exact ⟨([], l), rfl⟩
  | succ m ih =>
    have hk : k ≤ l.length := by
      have : k ≤ (m + 1) * k := by
        calc k = 1 * k := (one_mul k).symm
          _ ≤ (m + 1) * k := Nat.mul_le_mul_right k (by omega)
      omega
    obtain ⟨⟨h1, l1⟩, hone⟩ := dealOneHand_isSome hk
    obtain ⟨hl1, hlen1⟩ := dealOneHand_eq_some hone
    have hrec : m * k ≤ l1.length := by
      have hL : l.length = l1.length + k := by
        rw [hl1]
        simp [hlen1]
      have : (m + 1) * k = m * k + k := by ring
      omega
    obtain ⟨q, hq⟩ := ih hrec
    exact ⟨(h1 :: q.1, q.2), by simp [dealHands, hone, hq]⟩

theorem deal_ok {cards : List Card} {numHands numCards : Nat}
    (h : numCards * numHands ≤ cards.length) :
    (deal cards numHands numCards).1 = Except.ok (okHands cards numHands numCards) ∧
    (okHands cards numHands numCards).length = numHands ∧
    (∀ hd ∈ okHands cards numHands numCards, hd.length = numCards) ∧
    cards.Perm ((okHands cards numHands numCards).flatten ++ (deal cards numHands numCards).2) := by
  obtain ⟨⟨hs, r⟩, hdh⟩ := @dealHands_isSome numHands numCards cards
    (by simpa [Nat.mul_comm] using h)
  have hguard : ¬ numCards * numHands > cards.length := by omega
  have hdeal : deal cards numHands numCards = (Except.ok hs, r) := by
    simp [deal, hguard, hdh]
  have hok : okHands cards numHands numCards = hs := by
    simp [okHands, hdeal]
  obtain ⟨hlen, hall, hperm⟩ := dealHands_eq_some hdh
  refine ⟨by simp [hdeal, hok], by simp [hok, hlen], ?_, ?_⟩
  · intro hd hmem
    rw [hok] at hmem
    exact hall hd hmem
  · rw [hok, hdeal]
    exact hperm

theorem deal_insufficient {cards : List Card} {numHands numCards : Nat}
    (h : numCards * numHands > cards.length) :
    deal cards numHands numCards = (Except.error "Not enough cards in the deck!", cards) := by
  simp [deal, h]

end Deck

theorem assignHands_ok (reg : Registry) (hands : List (List Card)) (y : Nat)
    (h : y + reg.length ≤ hands.length) :
    assignHands reg hands y =
      (Except.ok (), List.zipWith assignEntry reg (hands.drop y)) := by
  induction reg generalizing y with
  | nil => simp [assignHands]
  | cons e rest ih =>
    have hy : y < hands.length := by
      simp only [List.length_cons] at h
      omega
    have hsome : hands[y]? = some hands[y] := List.getElem?_eq_getElem hy
    have hdrop : hands.drop y = hands[y] :: hands.drop (y + 1) :=
      List.drop_eq_getElem_cons hy
    have hrec := ih (y + 1) (by simp only [List.length_cons] at h; omega)
    rw [hdrop]
    simp only [assignHands, hsome, hrec, List.zipWith_cons_cons]
    simp [assignEntry]

theorem assignHands_err (reg : Registry) (hands : List (List Card)) (y : Nat)
    (h1 : hands.length < y + reg.length) (h2 : y ≤ hands.length) :
    assignHands reg hands y =
      (Except.error "IndexError: list index out of range",
       List.zipWith assignEntry reg (hands.drop y) ++ reg.drop (hands.length - y)) := by
  induction reg generalizing y with
  | nil =>
    simp only [List.length_nil, Nat.add_zero] at h1
    omega
  | cons e rest ih =>
    by_cases hy : y < hands.length
    · have hsome : hands[y]? = some hands[y] := List.getElem?_eq_getElem hy
      have hdrop : hands.drop y = hands[y] :: hands.drop (y + 1) :=
        List.drop_eq_getElem_cons hy
      have hrec := ih (y + 1) (by simp only [List.length_cons] at h1; omega) (by omega)
      have hdropreg : (e :: rest).drop (hands.length - y) =
          rest.drop (hands.length - (y + 1)) := by
        have hstep : hands.length - y = (hands.length - (y + 1)) + 1 := by omega
        rw [hstep, List.drop_succ_cons]
      rw [hdrop, hdropreg]
      simp only [assignHands, hsome, hrec, List.zipWith_cons_cons]
      simp [assignEntry]
    · have hnone : hands[y]? = none := List.getElem?_eq_none (by omega)
      have hdrop : hands.drop y = [] := List.drop_of_length_le (by omega)
      have hz : hands.length - y = 0 := by omega
      simp [assignHands, hnone, hdrop, hz]

theorem zipWith_assignEntry_isSome (reg : Registry) (hands : List (List Card)) :
    ∀ e ∈ List.zipWith assignEntry reg hands, e.2.hands.isSome := by
  induction reg generalizing hands with
  | nil => simp
  | cons a rest ih =>
    cases hands with
    | nil => simp
    | cons hd hs =>
      intro e he
      simp only [List.zipWith_cons_cons] at he
      rcases List.mem_cons.1 he with he | he
      · rw [he]
        simp [assignEntry]
      · exact ih hs e he

theorem sortLoop_ok (reg : Registry) (h : ∀ e ∈ reg, e.2.hands.isSome) :
    sortLoop reg = Except.ok (reg.map sortEntry) := by
  induction reg with
  | nil => simp [sortLoop]
  | cons e rest ih =>
    obtain ⟨hd, hhd⟩ := Option.isSome_iff_exists.1 (h e (List.mem_cons_self e rest))
    have hrec := ih (fun x hx => h x (List.mem_cons_of_mem e hx))
    simp [sortLoop, hhd, hrec, sortEntry, Except.map]

theorem start_ok (registry : Registry) (shuffled : List Card)
    (hlen : registry.length ≤ 4) (hs : 52 ≤ shuffled.length) :
    start registry shuffled =
      (Except.ok "true",
       List.zipWith assignSortEntry registry (dealtHands shuffled)) := by
  obtain ⟨hdeal1, hdlen, hdall, hdperm⟩ :=
    @Deck.deal_ok shuffled 4 13 (by omega)
  have hassign : assignHands registry (okHands shuffled 4 13) 0 =
      (Except.ok (), List.zipWith assignEntry registry (okHands shuffled 4 13)) := by
    have := assignHands_ok registry (okHands shuffled 4 13) 0 (by omega)
    simpa using this
  have hsl : sortLoop (List.zipWith assignEntry registry (okHands shuffled 4 13)) =
      Except.ok ((List.zipWith assignEntry registry (okHands shuffled 4 13)).map sortEntry) :=
    sortLoop_ok _ (zipWith_assignEntry_isSome _ _)
  have hmap : (List.zipWith assignEntry registry (okHands shuffled 4 13)).map sortEntry =
      List.zipWith assignSortEntry registry (okHands shuffled 4 13) := by
    rw [List.map_zipWith]
    congr 1
  simp [start, hdeal1, hassign, hsl, hmap, dealtHands]

theorem charListLt_irrefl : ∀ x : List Char, charListLt x x = false := by
  intro x
  induction x with
  | nil => rfl
  | cons c cs ih => simp [charListLt, lt_irrefl, ih]

theorem charListLt_cons_iff (c d : Char) (cs ds : List Char) :
    charListLt (c :: cs) (d :: ds) = true ↔
      (c < d ∨ (c = d ∧ charListLt cs ds = true)) := by
  have hdef : charListLt (c :: cs) (d :: ds) =
      if c < d then true else if c = d then charListLt cs ds else false := rfl
  rw [hdef]
  split_ifs with h1 h2
  · simp [h1]
  · simp [h1, h2]
  · simp [h1, h2]

theorem charListLt_trans :
    ∀ (x y z : List Char), charListLt x y = true → charListLt y z = true →
      charListLt x z = true := by
  intro x
  induction x with
  | nil =>
    intro y z hxy hyz
    cases y with
    | nil => simp [charListLt] at hxy
    | cons d ds =>
      cases z with
      | nil => simp [charListLt] at hyz
      | cons e es => simp [charListLt]
  | cons c cs ih =>
    intro y z hxy hyz
    cases y with
    | nil => simp [charListLt] at hxy
    | cons d ds =>
      cases z with
      | nil => simp [charListLt] at hyz
      | cons e es =>
        rw [charListLt_cons_iff] at hxy hyz ⊢
        rcases hxy with h | ⟨h, h2⟩ <;> rcases hyz with g | ⟨g, g2⟩
        · exact Or.inl (h.trans g)
        · exact Or.inl (g ▸ h)
        · exact Or.inl (h ▸ g)
        · exact Or.inr ⟨h.trans g, ih ds es h2 g2⟩

theorem charListLt_eq_of_both_false :
    ∀ (x y : List Char), charListLt x y = false → charListLt y x = false →
      x = y := by
  intro x
  induction x with
  | nil =>
    intro y hxy _
    cases y with
    | nil => rfl
    | cons d ds => simp [charListLt] at hxy
  | cons c cs ih =>
    intro y hxy hyx
    cases y with
    | nil => simp [charListLt] at hyx
    | cons d ds =>
      have hxy' : ¬ (c < d ∨ (c = d ∧ charListLt cs ds = true)) := by
        rw [← charListLt_cons_iff]
        simp [hxy]
      have hyx' : ¬ (d < c ∨ (d = c ∧ charListLt ds cs = true)) := by
        rw [← charListLt_cons_iff]
        simp [hyx]
      push_neg at hxy' hyx'
      have hcd : c = d := le_antisymm hyx'.1 hxy'.1
      have hcs : charListLt cs ds = false :=
        Bool.eq_false_iff.2 (hxy'.2 hcd)
      have hds : charListLt ds cs = false :=
        Bool.eq_false_iff.2 (hyx'.2 hcd.symm)
      rw [hcd, ih ds hcs hds]

theorem strLt_trans {a b c : String}
    (hab : strLt a b = true) (hbc : strLt b c = true) : strLt a c = true :=
  charListLt_trans a.data b.data c.data hab hbc

theorem strLt_eq_of_both_false {a b : String}
    (hab : strLt a b = false) (hba : strLt b a = false) : a = b :=
  String.ext (charListLt_eq_of_both_false a.data b.data hab hba)

theorem strLt_irrefl (a : String) : strLt a a = false :=
  charListLt_irrefl a.data

theorem keyLe_iff (a b : String × Nat) :
    keyLe a b = true ↔ (strLt a.1 b.1 = true ∨ (a.1 = b.1 ∧ a.2 ≤ b.2)) := by
  unfold keyLe
  split_ifs with h1 h2
  · simp [h1]
  · simp [h1, h2, strLt_irrefl]
  · simp [h1, h2]

theorem keyLe_trans (a b c : String × Nat)
    (hab : keyLe a b = true) (hbc : keyLe b c = true) : keyLe a c = true := by
  rw [keyLe_iff] at hab hbc ⊢
  rcases hab with h | ⟨h, h2⟩ <;> rcases hbc with g | ⟨g, g2⟩
  · exact Or.inl (strLt_trans h g)
  · exact Or.inl (g ▸ h)
  · exact Or.inl (h ▸ g)
  · exact Or.inr ⟨h.trans g, h2.trans g2⟩

theorem keyLe_total (a b : String × Nat) :
    (keyLe a b || keyLe b a) = true := by
  rw [Bool.or_eq_true, keyLe_iff, keyLe_iff]
  rcases Bool.eq_false_or_eq_true (strLt a.1 b.1) with hab | hab
  · exact Or.inl (Or.inl hab)
  · rcases Bool.eq_false_or_eq_true (strLt b.1 a.1) with hba | hba
    · exact Or.inr (Or.inl hba)
    · have heq : a.1 = b.1 := strLt_eq_of_both_false hab hba
      rcases le_total a.2 b.2 with h2 | h2
      · exact Or.inl (Or.inr ⟨heq, h2⟩)
      · exact Or.inr (Or.inr ⟨heq.symm, h2⟩)

theorem sortForDisplay_perm (hand : List Card) :
    List.Perm (sortForDisplay hand) hand :=
  List.perm_insertionSort pyLe hand

theorem sortForDisplay_pairwise (hand : List Card) :
    List.Pairwise (fun a b => keyLe (suit_sort a) (suit_sort b) = true)
      (sortForDisplay hand) := by
  haveI : IsTrans Card pyLe :=
    ⟨fun a b c hab hbc =>
      keyLe_trans (suit_sort a) (suit_sort b) (suit_sort c) hab hbc⟩
  haveI : IsTotal Card pyLe :=
    ⟨fun a b => by
      have h := keyLe_total (suit_sort a) (suit_sort b)
      rcases Bool.or_eq_true_iff.1 h with h | h
      · exact Or.inl h
      · exact Or.inr h⟩
  exact List.sorted_insertionSort pyLe hand

theorem sortForDisplay_length (hand : List Card) :
    (sortForDisplay hand).length = hand.length :=
  (sortForDisplay_perm hand).length_eq

theorem sortedByKey_of_pairwise :
    ∀ {l : List Card},
      List.Pairwise (fun a b => keyLe (suit_sort a) (suit_sort b) = true) l →
      sortedByKey l = true := by
  intro l h
  induction l with
  | nil => rfl
  | cons a t ih =>
    cases t with
    | nil => rfl
    | cons b t2 =>
      rcases List.pairwise_cons.1 h with ⟨hall, htail⟩
      have hab : keyLe (suit_sort a) (suit_sort b) = true :=
        hall b (List.mem_cons_self b t2)
      have hrest := ih htail
      simp [sortedByKey, hab, hrest]

theorem sortForDisplay_sortedByKey (hand : List Card) :
    sortedByKey (sortForDisplay hand) = true :=
  sortedByKey_of_pairwise (sortForDisplay_pairwise hand)

theorem lookup_map_set (k : String) (v : PlayerEntry) :
    ∀ m : Registry, (m.lookup k).isSome →
      ((m.map (fun e => if e.1 = k then (e.1, v) else e)).lookup k) = some v := by
  intro m
  induction m with
  | nil => simp
  | cons e rest ih =>
    intro h
    by_cases hk : e.1 = k
    · rw [List.map_cons, if_pos hk]
      have hbeq : (k == e.1) = true := by
        rw [hk]
        simp
      simp [List.lookup, hbeq]
    · have hne : (k == e.1) = false := by
        simp [BEq.beq]
        exact fun hc => hk hc.symm
      have h2 : (rest.lookup k).isSome := by
        simpa [List.lookup, hne] using h
      simp only [List.map_cons, if_neg hk]
      simpa [List.lookup, hne] using ih h2

theorem lookup_append_of_none (k : String) (l2 : Registry) :
    ∀ m : Registry, m.lookup k = none → (m ++ l2).lookup k = l2.lookup k := by
  intro m
  induction m with
  | nil => simp
  | cons e rest ih =>
    intro h
    rcases hke : (k == e.1) with _ | _
    · have h2 : rest.lookup k = none := by
        simpa [List.lookup, hke] using h
      simpa [List.lookup, hke] using ih h2
    · simp [List.lookup, hke] at h

theorem lookup_dictSet (m : Registry) (k : String) (v : PlayerEntry) :
    (dictSet m k v).lookup k = some v := by
  unfold dictSet
  split_ifs with h
  · exact lookup_map_set k v m h
  · have hn : m.lookup k = none := by
      rcases hv : m.lookup k with _ | w
      · rfl
      · rw [hv] at h
        simp at h
    rw [lookup_append_of_none k _ m hn]
    simp [List.lookup]

theorem filterMap_zipWith_assignSort (reg : Registry) :
    ∀ hands : List (List Card),
      (List.zipWith assignSortEntry reg hands).filterMap (fun e => e.2.hands) =
        (hands.take reg.length).map sortForDisplay := by
  induction reg with
  | nil => intro hands; simp
  | cons e rest ih =>
    intro hands
    cases hands with
    | nil => simp
    | cons hd hs => simp [assignSortEntry, ih hs]

theorem zipWith_assignSort_handSorted (reg : Registry) :
    ∀ hands : List (List Card),
      (List.zipWith assignSortEntry reg hands).all handSortedPy = true := by
  induction reg with
  | nil => intro hands; simp
  | cons e rest ih =>
    intro hands
    cases hands with
    | nil => simp
    | cons hd hs =>
      rw [List.zipWith_cons_cons, List.all_cons, Bool.and_eq_true]
      constructor
      · simp [handSortedPy, assignSortEntry, sortForDisplay_sortedByKey]
      · exact ih hs

theorem flatten_map_sortForDisplay_perm :
    ∀ hands : List (List Card),
      List.Perm (hands.map sortForDisplay).flatten hands.flatten := by
  intro hands
  induction hands with
  | nil => exact List.Perm.refl _
  | cons hd hs ih =>
    simp only [List.map_cons, List.flatten_cons]
    exact (sortForDisplay_perm hd).append ih

theorem deck_init_nodup : Deck.init.Nodup := by decide

theorem deal_counts {cards : List Card} {n k : Nat} (h : k * n ≤ cards.length) :
    ((okHands cards n k).map List.length).sum = n * k ∧
    ((Deck.deal cards n k).2).length = cards.length - n * k := by
  obtain ⟨h1, hlen, hall, hperm⟩ := Deck.deal_ok h
  have hmap : (okHands cards n k).map List.length = List.replicate n k := by
    rw [List.eq_replicate_iff]
    constructor
    · simp [hlen]
    · intro b hb
      rw [List.mem_map] at hb
      obtain ⟨hd, hhd, hbe⟩ := hb
      rw [← hbe]
      exact hall hd hhd
  have hsum : ((okHands cards n k).map List.length).sum = n * k := by
    rw [hmap, List.sum_replicate, smul_eq_mul]
  refine ⟨hsum, ?_⟩
  have hleq := hperm.length_eq
  rw [List.length_append, List.length_flatten, hsum] at hleq
  omega

/-- Claim C4: for every deck and sizes with numHands times cardsPerHand
exceeding the deck size, deal fails with the insufficient-cards error
and returns the deck with the same size, contents and order, the check
firing before any card is removed. -/
theorem C4_deal_insufficient (cards : List Card) (numHands numCards : Nat)
    (h : numHands * numCards > cards.length) :
    Deck.deal cards numHands numCards =
      (Except.error "Not enough cards in the deck!", cards) := by
  rw [Nat.mul_comm] at h
  exact Deck.deal_insufficient h

/-- Witness for C4 at a concrete oversized request: five hands of
thirteen cards from the fresh 52-card deck. -/
theorem C4_deal_insufficient_witness :
    5 * 13 > Deck.init.length ∧
    Deck.deal Deck.init 5 13 =
      (Except.error "Not enough cards in the deck!", Deck.init) :=
  ⟨by decide, C4_deal_insufficient Deck.init 5 13 (by decide)⟩

/-- Claim C5: dealing any n hands of k cards with n times k at most 52
from any shuffle of the fresh deck yields exactly n hands of size k,
pairwise disjoint, with no card duplicated between hands or between a
hand and the remaining deck, and the remaining deck holds 52 minus n
times k cards. -/
theorem C5_shuffle_deal (shuffled : List Card) (n k : Nat)
    (hp : List.Perm shuffled Deck.init) (hnk : n * k ≤ 52) :
    (Deck.deal shuffled n k).1 = Except.ok (okHands shuffled n k) ∧
    (okHands shuffled n k).length = n ∧
    (okHands shuffled n k).all (fun h => h.length == k) = true ∧
    ((okHands shuffled n k).flatten ++ (Deck.deal shuffled n k).2).Nodup ∧
    List.Pairwise List.Disjoint (okHands shuffled n k) ∧
    ((Deck.deal shuffled n k).2).length = 52 - n * k := by
  have hlen52 : shuffled.length = 52 := by
    rw [hp.length_eq]
    rfl
  have hkn : k * n ≤ shuffled.length := by
    rw [hlen52, Nat.mul_comm]
    exact hnk
  obtain ⟨h1, hlen, hall, hperm⟩ := Deck.deal_ok hkn
  have hnodup : shuffled.Nodup := hp.symm.nodup deck_init_nodup
  have hfn : ((okHands shuffled n k).flatten ++ (Deck.deal shuffled n k).2).Nodup :=
    hperm.nodup hnodup
  refine ⟨h1, hlen, ?_, hfn, ?_, ?_⟩
  · rw [List.all_eq_true]
    intro h hh
    exact beq_iff_eq.2 (hall h hh)
  · exact (List.nodup_flatten.1 (List.nodup_append.1 hfn).1).2
  · have := (deal_counts hkn).2
    rw [hlen52] at this
    exact this

/-- Witness for C5 at the identity shuffle of the fresh deck with four
hands of thirteen. -/
theorem C5_shuffle_deal_witness :
    List.Perm Deck.init Deck.init ∧ 4 * 13 ≤ 52 ∧
    (Deck.deal Deck.init 4 13).1 = Except.ok (okHands Deck.init 4 13) ∧
    ((Deck.deal Deck.init 4 13).2).length = 52 - 4 * 13 := by
  have h := C5_shuffle_deal Deck.init 4 13 (List.Perm.refl _) (by decide)
  exact ⟨List.Perm.refl _, by decide, h.1, h.2.2.2.2.2⟩

/-- Claim C6: after start with exactly four registered players and any
shuffle of the fresh deck, the registry stores four hands of thirteen
cards each, the hands are pairwise disjoint, their union is exactly the
original 52-card deck, and the deal leaves zero cards in the deck. -/
theorem C6_start_four_players (registry : Registry) (shuffled : List Card)
    (h4 : registry.length = 4) (hp : List.Perm shuffled Deck.init) :
    (start registry shuffled).1 = Except.ok "true" ∧
    (storedHands (start registry shuffled).2).length = 4 ∧
    (storedHands (start registry shuffled).2).all (fun h => h.length == 13) = true ∧
    List.Perm (storedHands (start registry shuffled).2).flatten Deck.init ∧
    List.Pairwise List.Disjoint (storedHands (start registry shuffled).2) ∧
    (Deck.deal shuffled 4 13).2 = [] := by
  have hlen52 : shuffled.length = 52 := by
    rw [hp.length_eq]
    rfl
  have hstart := start_ok registry shuffled (by omega) (by omega)
  obtain ⟨h1, hdlen, hdall, hdperm⟩ :=
    @Deck.deal_ok shuffled 4 13 (by omega)
  have hrest : (Deck.deal shuffled 4 13).2 = [] := by
    have hc := (@deal_counts shuffled 4 13 (by omega)).2
    rw [hlen52] at hc
    rw [← List.length_eq_zero]
    omega
  have hflat : List.Perm (okHands shuffled 4 13).flatten Deck.init := by
    have hsp : List.Perm shuffled ((okHands shuffled 4 13).flatten) := by
      have h0 := hdperm
      rw [hrest] at h0
      simpa using h0
    exact hsp.symm.trans hp
  have hstored : storedHands (start registry shuffled).2 =
      (okHands shuffled 4 13).map sortForDisplay := by
    rw [hstart]
    show (List.zipWith assignSortEntry registry (dealtHands shuffled)).filterMap
        (fun e => e.2.hands) = _
    rw [filterMap_zipWith_assignSort, h4]
    have htake : (dealtHands shuffled).take 4 = okHands shuffled 4 13 := by
      show (okHands shuffled 4 13).take 4 = okHands shuffled 4 13
      exact List.take_of_length_le (by rw [hdlen])
    rw [htake]
  have hfn : (okHands shuffled 4 13).flatten.Nodup :=
    hflat.symm.nodup deck_init_nodup
  have hpd : List.Pairwise List.Disjoint (okHands shuffled 4 13) :=
    (List.nodup_flatten.1 hfn).2
  refine ⟨by rw [hstart], ?_, ?_, ?_, ?_, hrest⟩
  · rw [hstored]
    simp [hdlen]
  · rw [hstored, List.all_eq_true]
    intro h hh
    rw [List.mem_map] at hh
    obtain ⟨hd, hhd, hbe⟩ := hh
    rw [← hbe]
    rw [beq_iff_eq, sortForDisplay_length]
    exact hdall hd hhd
  · rw [hstored]
    exact (flatten_map_sortForDisplay_perm (okHands shuffled 4 13)).trans hflat
  · rw [hstored]
    refine List.pairwise_map.2 (hpd.imp ?_)
    intro a b hab x hxa hxb
    exact hab ((sortForDisplay_perm a).subset hxa) ((sortForDisplay_perm b).subset hxb)

/-- Witness for C6 at the four-player registry and the identity
shuffle. -/
theorem C6_start_four_players_witness :
    reg4.length = 4 ∧ List.Perm Deck.init Deck.init ∧
    (start reg4 Deck.init).1 = Except.ok "true" ∧
    (storedHands (start reg4 Deck.init).2).length = 4 := by
  have h := C6_start_four_players reg4 Deck.init (by decide) (List.Perm.refl _)
  exact ⟨by decide, List.Perm.refl _, h.1, h.2.1⟩

/-- Claim C3, counterexample to the stated suit order: starting with one
registered player on a legitimate shuffle (the fresh deck with first and
last card exchanged) succeeds, yet the stored hand is NOT sorted by the
enumeration order Hearts, Diamonds, Spades, Clubs claimed by the spec:
the string sort places the Clubs cards before the Hearts card. -/
theorem C3_counterexample :
    List.Perm swapDeck Deck.init ∧
    (start reg1 swapDeck).1 = Except.ok "true" ∧
    ((start reg1 swapDeck).2.map (fun e => e.2.hands.map specEnumSorted)) =
      [some false] := by
  refine ⟨by decide, by decide, by decide⟩

/-- Claim C3 as amended: after a successful start the stored hands are
the dealt hands sorted by the key (suit as a string, then rank) - the
string order puts suits alphabetically: Clubs, Diamonds, Hearts,
Spades - and sorting never changes a hand, as every sorted hand is a
permutation of the hand that was dealt. -/
theorem C3_display_sort (registry : Registry) (shuffled : List Card)
    (hlen : registry.length ≤ 4) (hs : 52 ≤ shuffled.length) :
    (start registry shuffled).1 = Except.ok "true" ∧
    (start registry shuffled).2 =
      List.zipWith assignSortEntry registry (dealtHands shuffled) ∧
    ((start registry shuffled).2).all handSortedPy = true ∧
    ∀ hand : List Card, List.Perm (sortForDisplay hand) hand := by
  have hstart := start_ok registry shuffled hlen hs
  refine ⟨by rw [hstart], by rw [hstart], ?_, sortForDisplay_perm⟩
  rw [hstart]
  exact zipWith_assignSort_handSorted registry (dealtHands shuffled)

/-- Witness for the amended C3 at the one-player registry and the
identity shuffle. -/
theorem C3_display_sort_witness :
    reg1.length ≤ 4 ∧ 52 ≤ Deck.init.length ∧
    (start reg1 Deck.init).1 = Except.ok "true" ∧
    ((start reg1 Deck.init).2).all handSortedPy = true := by
  have h := C3_display_sort reg1 Deck.init (by decide) (by decide)
  exact ⟨by decide, by decide, h.1, h.2.2.1⟩

/-- Claim C1, counterexample: with five registered players and the
identity shuffle, start raises an index error rather than the
insufficient-cards error, and the registry afterwards differs from the
registry before - the first four players were assigned hands before the
failure. -/
theorem C1_counterexample :
    (start reg5 Deck.init).1 = Except.error "IndexError: list index out of range" ∧
    (start reg5 Deck.init).1 ≠ Except.error "Not enough cards in the deck!" ∧
    (start reg5 Deck.init).2 ≠ reg5 := by
  refine ⟨by decide, by decide, by decide⟩

/-- Claim C1 as amended: with more than four registered players and any
52-card shuffled deck, the deal of four hands of thirteen succeeds, so
start does not fail with the insufficient-cards error; instead the
assignment loop raises an index error after writing unsorted hands into
the first four registry entries, leaving the entries from the fifth
player on untouched. -/
theorem C1_start_overfull (registry : Registry) (shuffled : List Card)
    (h5 : 4 < registry.length) (hs : shuffled.length = 52) :
    (start registry shuffled).1 = Except.error "IndexError: list index out of range" ∧
    (start registry shuffled).2 =
      List.zipWith assignEntry registry (dealtHands shuffled) ++ registry.drop 4 ∧
    (dealtHands shuffled).length = 4 := by
  obtain ⟨hdeal1, hdlen, hdall, hdperm⟩ :=
    @Deck.deal_ok shuffled 4 13 (by omega)
  have herr := assignHands_err registry (okHands shuffled 4 13) 0
      (by rw [hdlen]; omega) (by omega)
  rw [List.drop_zero, Nat.sub_zero, hdlen] at herr
  have hstart : start registry shuffled =
      (Except.error "IndexError: list index out of range",
       List.zipWith assignEntry registry (okHands shuffled 4 13) ++ registry.drop 4) := by
    simp [start, hdeal1, herr]
  exact ⟨by rw [hstart], by rw [hstart]; rfl, hdlen⟩

/-- Witness for the amended C1 at the five-player registry and the
identity shuffle. -/
theorem C1_start_overfull_witness :
    4 < reg5.length ∧ Deck.init.length = 52 ∧
    (start reg5 Deck.init).1 = Except.error "IndexError: list index out of range" := by
  have h := C1_start_overfull reg5 Deck.init (by decide) (by decide)
  exact ⟨by decide, by decide, h.1⟩

/-- Claim C2, counterexample: registering a player and querying the hand
before start raises the missing-key error instead of returning the empty
sequence the spec promises. -/
theorem C2_counterexample :
    gethand (ready [] "id-ben" "ben").1 "id-ben" = Except.error "KeyError: hands" ∧
    gethand (ready [] "id-ben" "ben").1 "id-ben" ≠ Except.ok [] := by
  refine ⟨by decide, by decide⟩

/-- Claim C2 as amended: for every registry, registering a player and
then querying that identifier before any start always fails with the
missing-hands key error, because registration stores only the name. -/
theorem C2_gethand_before_start (registry : Registry) (newId name : String) :
    gethand (ready registry newId name).1 newId = Except.error "KeyError: hands" := by
  have hl : ((ready registry newId name).1).lookup newId = some ⟨name, none⟩ :=
    lookup_dictSet registry newId ⟨name, none⟩
  simp [gethand, hl]

/-- Claim C7: the deck builder produces exactly 52 pairwise distinct
cards, 13 ranks from 1 to 13 for each of the 4 suits, with suits in the
fixed enumeration order and ranks ascending within each suit; the
builder is a pure function, hence deterministic and effect-free. -/
theorem C7_buildDeck :
    Deck.init.length = 52 ∧
    Deck.init.Nodup ∧
    Deck.init.map specEnumKey = List.range 52 ∧
    (∀ c ∈ Deck.init, c.suit ∈ Deck.suits ∧ 1 ≤ c.rank ∧ c.rank ≤ 13) ∧
    (∀ s ∈ Deck.suits, ∀ r ∈ List.range' 1 13, Card.mk s r ∈ Deck.init) := by
  decide

/-- Claim C8: reset empties the registry, so the player count is zero
afterwards; it is total on every registry (hence safe in any lifecycle
phase) and idempotent, as a second reset leaves the state of the first
unchanged. -/
theorem C8_reset (registry : Registry) :
    (clear registry).length = 0 ∧
    check (clear registry) = "0" ∧
    clear (clear registry) = clear registry :=
  ⟨rfl, by show check [] = "0"; decide, rfl⟩

/-- Claim C9: on a registry of at most four players a first start
succeeds, a second start succeeds as well and re-deals: every stored
hand is replaced by the display-sorted hand dealt from the second
freshly shuffled 52-card deck, each of thirteen cards. -/
theorem C9_double_start (registry : Registry) (shuffled1 shuffled2 : List Card)
    (hlen : registry.length ≤ 4)
    (hp1 : List.Perm shuffled1 Deck.init) (hp2 : List.Perm shuffled2 Deck.init) :
    (start registry shuffled1).1 = Except.ok "true" ∧
    (start (start registry shuffled1).2 shuffled2).1 = Except.ok "true" ∧
    (start (start registry shuffled1).2 shuffled2).2 =
      List.zipWith assignSortEntry (start registry shuffled1).2 (dealtHands shuffled2) ∧
    (dealtHands shuffled2).all (fun h => h.length == 13) = true := by
  have h52a : shuffled1.length = 52 := by
    rw [hp1.length_eq]
    rfl
  have h52b : shuffled2.length = 52 := by
    rw [hp2.length_eq]
    rfl
  have hs1 := start_ok registry shuffled1 hlen (by omega)
  have hlen1 : ((start registry shuffled1).2).length ≤ 4 := by
    rw [hs1, List.length_zipWith]
    exact le_trans (min_le_left _ _) hlen
  have hs2 := start_ok ((start registry shuffled1).2) shuffled2 hlen1 (by omega)
  obtain ⟨_, _, hall2, _⟩ :=
    @Deck.deal_ok shuffled2 4 13 (by omega)
  refine ⟨by rw [hs1], by rw [hs2], by rw [hs2], ?_⟩
  rw [List.all_eq_true]
  intro h hh
  exact beq_iff_eq.2 (hall2 h hh)

/-- Witness for C9 at the four-player registry with the identity
shuffle for both deals. -/
theorem C9_double_start_witness :
    reg4.length ≤ 4 ∧ List.Perm Deck.init Deck.init ∧
    (start reg4 Deck.init).1 = Except.ok "true" ∧
    (start (start reg4 Deck.init).2 Deck.init).1 = Except.ok "true" := by
  have h := C9_double_start reg4 Deck.init Deck.init (by decide)
    (List.Perm.refl _) (List.Perm.refl _)
  exact ⟨by decide, List.Perm.refl _, h.1, h.2.1⟩

/-- Claim C10: registering under a freshly generated identifier (one
not already a key of the registry) appends exactly one entry with that
identifier, the given name and no hand, leaves every pre-existing entry
unchanged, raises the player count by exactly one, and echoes the
identifier and name, regardless of duplicate names. -/
theorem C10_register_fresh (registry : Registry) (newId name : String)
    (hfresh : registry.lookup newId = none) :
    (ready registry newId name).1 = registry ++ [(newId, ⟨name, none⟩)] ∧
    ((ready registry newId name).1).length = registry.length + 1 ∧
    (ready registry newId name).2 = (newId, name) := by
  have hcond : (registry.lookup newId).isSome = false := by
    rw [hfresh]
    rfl
  refine ⟨?_, ?_, rfl⟩
  · simp [ready, dictSet, hcond]
  · simp [ready, dictSet, hcond]

/-- Witness for C10 registering a duplicate name under a fresh
identifier on a one-player registry. -/
theorem C10_register_fresh_witness :
    (reg1.lookup "p2" = none) ∧
    (ready reg1 "p2" "amy").1 = reg1 ++ [("p2", ⟨"amy", none⟩)] ∧
    ((ready reg1 "p2" "amy").1).length = reg1.length + 1 := by
  have h := C10_register_fresh reg1 "p2" "amy" (by decide)
  exact ⟨by decide, h.1, h.2.1⟩
